import Mathlib

/-!
Verification of the PDFOCR document-manager core against its specification.

This file gives a shallow embedding, in Lean 4, of the core subsystem of the
repository: the model gateway (src/lib/gemini.ts, revision in part_010), the
analysis-output parser (src/lib/parser.ts), the annotation store
(src/lib/bookmarks.ts), the citation formatter and search-result selection
(src/components/SearchPanel.tsx), and the annotation handlers of
src/app/page.tsx.

Modelling conventions:
- JavaScript strings are modelled as Lean String / List Char.
- JavaScript numbers are modelled as Nat (the values stored by the app are
  page numbers, timestamps and percentage coordinates, all non-negative
  integers; floating point is not modelled).
- The platform functions JSON.parse / JSON.stringify(-, null, 2) are modelled
  by an executable JSON value type (Json), a pretty printer (printJson,
  matching the two-space-indent output of JSON.stringify) and a recursive
  descent parser (jsonParse; numbers restricted to the unsigned integer
  literals the app produces).
- Asynchronous I/O is modelled by explicit state passing over an association
  list file system; a thrown exception is modelled by an Except / Option
  error value, and a try/catch block by a match on that value.
- The external generative-model service and the Fuse.js search library are
  modelled as function parameters (oracle style), since they are collaborators
  outside the repository.
-/

/-! ## JavaScript string primitives -/

/-- Whitespace class of the JSON grammar (what JSON.parse skips between
tokens). -/
def isJsonWs (c : Char) : Bool :=
  c = ' ' || c = '\t' || c = '\n' || c = '\r'

/-- Skip JSON inter-token whitespace. -/
def skipWs (l : List Char) : List Char :=
  l.dropWhile isJsonWs

/-- Whitespace class of the JavaScript regular-expression escape backslash-s
and of String.prototype.trim. -/
def isJsWhitespace (c : Char) : Bool :=
  [' ', '\t', '\n', '\r', '\x0b', '\x0c', '\u00a0', '\u1680', '\u2000',
   '\u2001', '\u2002', '\u2003', '\u2004', '\u2005', '\u2006', '\u2007',
   '\u2008', '\u2009', '\u200a', '\u2028', '\u2029', '\u202f', '\u205f',
   '\u3000', '\ufeff'].contains c

/-- JavaScript String.prototype.trim on a character list. -/
def jsTrim (l : List Char) : List Char :=
  ((l.dropWhile isJsWhitespace).reverse.dropWhile isJsWhitespace).reverse

/-- JavaScript String.prototype.trim. -/
def jsTrimS (s : String) : String :=
  String.mk (jsTrim s.data)

/-- JavaScript String.prototype.replace with a plain string pattern:
replace the first occurrence of pat by rep, or return the list unchanged
when pat does not occur. -/
def replaceFirst (pat rep : List Char) : List Char → List Char
  | [] => []
  | c :: rest =>
    if pat.isPrefixOf (c :: rest) then rep ++ (c :: rest).drop pat.length
    else c :: replaceFirst pat rep rest

/-- Number of positions of l at which pat occurs (overlapping occurrences
counted). -/
def countSub (pat : List Char) : List Char → Nat
  | [] => 0
  | c :: rest => (if pat.isPrefixOf (c :: rest) then 1 else 0) + countSub pat rest

/-- JavaScript String.prototype.lastIndexOf for a string pattern: the largest
index at which pat occurs, or none (JavaScript: -1) when it does not occur. -/
def lastIndexOfSub (pat l : List Char) : Option Nat :=
  ((List.range (l.length + 1)).filter (fun i => pat.isPrefixOf (l.drop i))).getLast?

/-! ## The JSON value model

JSON.parse and JSON.stringify are platform primitives, not repository code;
they are modelled here concretely so that the annotation-store claims can be
settled by computation.  Numbers are the unsigned integer literals that the
application serialises. -/

inductive Json where
  | null
  | bool (b : Bool)
  | num (n : Nat)
  | str (s : List Char)
  | arr (es : List Json)
  | obj (fields : List (List Char × Json))

/-- Hexadecimal digit character (lowercase, as produced by
JSON.stringify for control-character escapes). -/
def hexDigitChar (n : Nat) : Char :=
  Char.ofNat (if n < 10 then 48 + n else 87 + n)

/-- Escape of a single character inside a JSON string literal, following
JSON.stringify: quote, backslash and the named control escapes get two-character
escapes, other control characters get a backslash-u escape, everything else is
emitted verbatim. -/
def escChar (c : Char) : List Char :=
  if c = '"' then ['\\', '"']
  else if c = '\\' then ['\\', '\\']
  else if c = '\n' then ['\\', 'n']
  else if c = '\t' then ['\\', 't']
  else if c = '\r' then ['\\', 'r']
  else if c = '\x08' then ['\\', 'b']
  else if c = '\x0c' then ['\\', 'f']
  else if c.toNat < 32 then
    ['\\', 'u', '0', '0', hexDigitChar (c.toNat / 16), hexDigitChar (c.toNat % 16)]
  else [c]

/-- Escape of a whole JSON string body. -/
def escapeStr : List Char → List Char
  | [] => []
  | c :: cs => escChar c ++ escapeStr cs

/-- Decimal digit character. -/
def digitChar (n : Nat) : Char := Char.ofNat (48 + n)

/-- Decimal printing of a natural number (the JSON number literals the
application writes). -/
def printNat (n : Nat) : List Char :=
  if n < 10 then [digitChar n] else printNat (n / 10) ++ [digitChar (n % 10)]
termination_by n
decreasing_by exact Nat.div_lt_self (by omega) (by omega)

mutual

/-- Pretty printer for Json, modelling JSON.stringify(value, null, 2):
two-space indentation, one array element or object field per line, empty
arrays and objects printed inline. -/
def printJson (ind : Nat) : Json → List Char
  | .null => "null".data
  | .bool true => "true".data
  | .bool false => "false".data
  | .num n => printNat n
  | .str s => '"' :: (escapeStr s ++ ['"'])
  | .arr [] => "[]".data
  | .arr (e :: es) =>
    '[' :: '\n' :: (printItems (ind + 1) e es ++
      '\n' :: (List.replicate (2 * ind) ' ' ++ [']']))
  | .obj [] => "\x7b\x7d".data
  | .obj ((k, v) :: fs) =>
    '\x7b' :: '\n' :: (printFields (ind + 1) k v fs ++
      '\n' :: (List.replicate (2 * ind) ' ' ++ ['\x7d']))
termination_by j => sizeOf j
decreasing_by all_goals (simp; try omega)

/-- One line per array element, comma separated. -/
def printItems (ind : Nat) (e : Json) : List Json → List Char
  | [] => List.replicate (2 * ind) ' ' ++ printJson ind e
  | e2 :: es =>
    List.replicate (2 * ind) ' ' ++ printJson ind e ++
      ',' :: '\n' :: printItems ind e2 es
termination_by es => 1 + sizeOf e + sizeOf es
decreasing_by all_goals (simp; try omega)

/-- One line per object field, comma separated, colon-space after the key. -/
def printFields (ind : Nat) (k : List Char) (v : Json) :
    List (List Char × Json) → List Char
  | [] =>
    List.replicate (2 * ind) ' ' ++
      '"' :: (escapeStr k ++ '"' :: ':' :: ' ' :: printJson ind v)
  | (k2, v2) :: fs =>
    List.replicate (2 * ind) ' ' ++
      '"' :: (escapeStr k ++ '"' :: ':' :: ' ' :: printJson ind v) ++
      ',' :: '\n' :: printFields ind k2 v2 fs
termination_by fs => 1 + sizeOf v + sizeOf fs
decreasing_by all_goals (simp; try omega)

end

/-- Value of a hexadecimal digit character. -/
def parseHexDigit (c : Char) : Option Nat :=
  if '0' ≤ c ∧ c ≤ '9' then some (c.toNat - 48)
  else if 'a' ≤ c ∧ c ≤ 'f' then some (c.toNat - 87)
  else if 'A' ≤ c ∧ c ≤ 'F' then some (c.toNat - 55)
  else none

/-- Prepend a character to the string component of a string-parse result. -/
def consStrResult (c : Char) : Option (List Char × List Char) → Option (List Char × List Char)
  | some (s, r) => some (c :: s, r)
  | none => none

mutual

/-- Parse the body of a JSON string literal (after the opening quote) up to and
including the closing quote, decoding escapes; returns the decoded string and
the rest of the input. -/
def parseStringBody : List Char → Option (List Char × List Char)
  | [] => none
  | c :: rest =>
    if c = '"' then some ([], rest)
    else if c = '\\' then parseEscape rest
    else consStrResult c (parseStringBody rest)
termination_by l => l.length
decreasing_by all_goals simp

/-- Parse the character named by a string escape (the input starts right after
the backslash). -/
def parseEscape : List Char → Option (List Char × List Char)
  | [] => none
  | e :: r =>
    if e = '"' then consStrResult '"' (parseStringBody r)
    else if e = '\\' then consStrResult '\\' (parseStringBody r)
    else if e = '/' then consStrResult '/' (parseStringBody r)
    else if e = 'n' then consStrResult '\n' (parseStringBody r)
    else if e = 't' then consStrResult '\t' (parseStringBody r)
    else if e = 'r' then consStrResult '\r' (parseStringBody r)
    else if e = 'b' then consStrResult '\x08' (parseStringBody r)
    else if e = 'f' then consStrResult '\x0c' (parseStringBody r)
    else if e = 'u' then parseUnicodeEscape r
    else none
termination_by l => l.length
decreasing_by all_goals simp

/-- Parse the four hexadecimal digits of a backslash-u escape. -/
def parseUnicodeEscape : List Char → Option (List Char × List Char)
  | d1 :: d2 :: d3 :: d4 :: r2 =>
    match parseHexDigit d1, parseHexDigit d2, parseHexDigit d3, parseHexDigit d4 with
    | some a, some b, some c2, some d =>
      consStrResult (Char.ofNat (4096 * a + 256 * b + 16 * c2 + d)) (parseStringBody r2)
    | _, _, _, _ => none
  | _ => none
termination_by l => l.length
decreasing_by all_goals (simp; try omega)

end

/-- Numeric value of a list of decimal digit characters. -/
def digitsVal (ds : List Char) : Nat :=
  ds.foldl (fun a c => 10 * a + (c.toNat - 48)) 0

/-- Parse a JSON unsigned integer literal. -/
def parseNum (l : List Char) : Option (Nat × List Char) :=
  let ds := l.takeWhile Char.isDigit
  if ds.isEmpty then none else some (digitsVal ds, l.dropWhile Char.isDigit)

mutual

/-- Recursive-descent parse of one JSON value (leading whitespace already
skipped); fuel-indexed to make the recursion structural. -/
def parseValue : Nat → List Char → Option (Json × List Char)
  | 0, _ => none
  | fuel + 1, l =>
    match l with
    | [] => none
    | c :: rest =>
      if c = 'n' then
        if rest.take 3 = ['u', 'l', 'l'] then some (.null, rest.drop 3) else none
      else if c = 't' then
        if rest.take 3 = ['r', 'u', 'e'] then some (.bool true, rest.drop 3) else none
      else if c = 'f' then
        if rest.take 4 = ['a', 'l', 's', 'e'] then some (.bool false, rest.drop 4) else none
      else if c = '"' then
        match parseStringBody rest with
        | some (s, r) => some (.str s, r)
        | none => none
      else if c = '[' then
        let t := skipWs rest
        if t.head? = some ']' then some (.arr [], t.tail)
        else
          match parseItems fuel t with
          | some (es, r) => some (.arr es, r)
          | none => none
      else if c = '\x7b' then
        let t := skipWs rest
        if t.head? = some '\x7d' then some (.obj [], t.tail)
        else
          match parseFields fuel t with
          | some (fs, r) => some (.obj fs, r)
          | none => none
      else if c.isDigit then
        match parseNum (c :: rest) with
        | some (n, r) => some (.num n, r)
        | none => none
      else none

/-- Parse the comma-separated elements of a non-empty JSON array, consuming
the closing bracket. -/
def parseItems : Nat → List Char → Option (List Json × List Char)
  | 0, _ => none
  | fuel + 1, l =>
    match parseValue fuel l with
    | none => none
    | some (v, r1) =>
      let t := skipWs r1
      if t.head? = some ',' then
        match parseItems fuel (skipWs t.tail) with
        | some (vs, r2) => some (v :: vs, r2)
        | none => none
      else if t.head? = some ']' then some ([v], t.tail)
      else none

/-- Parse the comma-separated fields of a non-empty JSON object, consuming
the closing brace. -/
def parseFields : Nat → List Char → Option (List (List Char × Json) × List Char)
  | 0, _ => none
  | fuel + 1, l =>
    match l with
    | [] => none
    | c :: rest =>
      if c = '"' then
        match parseStringBody rest with
        | none => none
        | some (k, r1) =>
          let t := skipWs r1
          if t.head? = some ':' then
            match parseValue fuel (skipWs t.tail) with
            | none => none
            | some (v, r2) =>
              let t2 := skipWs r2
              if t2.head? = some ',' then
                match parseFields fuel (skipWs t2.tail) with
                | some (fs, r3) => some ((k, v) :: fs, r3)
                | none => none
              else if t2.head? = some '\x7d' then some ([(k, v)], t2.tail)
              else none
          else none
      else none

end

/-- Model of JSON.parse: skip surrounding whitespace, parse one value, and
require the whole input to be consumed; none models a thrown SyntaxError. -/
def jsonParse (l : List Char) : Option Json :=
  match parseValue (2 * l.length + 2) (skipWs l) with
  | some (j, r) => if skipWs r = [] then some j else none
  | none => none

/-! ## Data model (src/lib/parser.ts, src/lib/bookmarks.ts) -/

/-- CitationMetadata (src/lib/parser.ts): each field is a string or null. -/
structure CitationMetadata where
  title : Option String
  author : Option String
  publicationYear : Option String
  publisher : Option String
deriving DecidableEq

/-- Paragraph (src/lib/parser.ts). -/
structure Paragraph where
  id : String
  text : String
  page : Nat
deriving DecidableEq

/-- ParsedDocument (src/lib/parser.ts).  The metadata field is the raw value
JSON.parse produced, because parseGeminiOutput assigns it without validation. -/
structure ParsedDocument where
  metadata : Json
  paragraphs : List Paragraph
  rawText : String

/-- HighlightArea (src/lib/bookmarks.ts); the percentage coordinates are
modelled as naturals. -/
structure HighlightArea where
  page : Nat
  x : Nat
  y : Nat
  width : Nat
  height : Nat
deriving DecidableEq

/-- The optional highlight payload of a SavedCitation. -/
structure HighlightInfo where
  color : String
  opacity : Nat
  areas : List HighlightArea
deriving DecidableEq

/-- SavedCitation (src/lib/bookmarks.ts). -/
structure SavedCitation where
  id : String
  text : String
  page : Nat
  timestamp : Nat
  highlight : Option HighlightInfo
deriving DecidableEq

/-- BookmarkData (src/lib/bookmarks.ts): the persisted annotation record. -/
structure BookmarkData where
  metadata : CitationMetadata
  bookmarks : List String
  savedCitations : List SavedCitation
deriving DecidableEq

/-- JSON image of a string-or-null field under JSON.stringify. -/
def optStrToJson : Option String → Json
  | none => Json.null
  | some s => Json.str s.data

/-- JSON image of a CitationMetadata value, keys in declaration order. -/
def citationMetadataToJson (md : CitationMetadata) : Json :=
  Json.obj [("title".data, optStrToJson md.title),
    ("author".data, optStrToJson md.author),
    ("publicationYear".data, optStrToJson md.publicationYear),
    ("publisher".data, optStrToJson md.publisher)]

/-- JSON image of a HighlightArea value. -/
def highlightAreaToJson (a : HighlightArea) : Json :=
  Json.obj [("page".data, Json.num a.page), ("x".data, Json.num a.x),
    ("y".data, Json.num a.y), ("width".data, Json.num a.width),
    ("height".data, Json.num a.height)]

/-- JSON image of a SavedCitation value: the highlight key is omitted when the
field is absent, exactly as JSON.stringify omits undefined fields. -/
def savedCitationToJson (c : SavedCitation) : Json :=
  Json.obj ([("id".data, Json.str c.id.data), ("text".data, Json.str c.text.data),
    ("page".data, Json.num c.page), ("timestamp".data, Json.num c.timestamp)] ++
    (match c.highlight with
     | none => []
     | some h =>
       [("highlight".data,
         Json.obj [("color".data, Json.str h.color.data),
           ("opacity".data, Json.num h.opacity),
           ("areas".data, Json.arr (h.areas.map highlightAreaToJson))])]))

/-- JSON image of a BookmarkData record (the JS object passed to
JSON.stringify by saveBookmarks). -/
def bookmarkDataToJson (d : BookmarkData) : Json :=
  Json.obj [("metadata".data, citationMetadataToJson d.metadata),
    ("bookmarks".data, Json.arr (d.bookmarks.map (fun s => Json.str s.data))),
    ("savedCitations".data, Json.arr (d.savedCitations.map savedCitationToJson))]

/-! ## Annotation store (src/lib/bookmarks.ts) -/

/-- The directory handle: an association list from file name to file text;
a new write shadows any previous entry for the same name. -/
def FileSys : Type := List (String × List Char)

/-- Read a file by name. -/
def lookupFile : FileSys → String → Option (List Char)
  | [], _ => none
  | (k, v) :: fs, n => if k = n then some v else lookupFile fs n

/-- getMetaFileName (src/lib/bookmarks.ts line 33): JavaScript replace with a
string pattern, which substitutes only the first occurrence of ".pdf". -/
def getMetaFileName (pdfFileName : String) : String :=
  String.mk (replaceFirst ".pdf".data "_meta.json".data pdfFileName.data)

/-- The all-default annotation record of loadBookmarks. -/
def defaultBookmarkData : BookmarkData :=
  { metadata := ⟨none, none, none, none⟩, bookmarks := [], savedCitations := [] }

/-- loadBookmarks (src/lib/bookmarks.ts lines 37-57): read the sidecar named
by getMetaFileName and return JSON.parse of its text; any failure (missing
file or JSON syntax error) is caught and yields the default record.  The
parsed value is returned without schema validation, so the result is an
arbitrary JSON value. -/
def loadBookmarks (rootHandle : FileSys) (pdfFileName : String) : Json :=
  match lookupFile rootHandle (getMetaFileName pdfFileName) with
  | none => bookmarkDataToJson defaultBookmarkData
  | some text =>
    match jsonParse text with
    | some j => j
    | none => bookmarkDataToJson defaultBookmarkData

/-- The write effect of saveBookmarks (src/lib/bookmarks.ts lines 59-74):
create or overwrite the sidecar with JSON.stringify(data, null, 2). -/
def saveBookmarksFs (rootHandle : FileSys) (pdfFileName : String)
    (data : BookmarkData) : FileSys :=
  (getMetaFileName pdfFileName, printJson 0 (bookmarkDataToJson data)) :: rootHandle

/-- saveBookmarks including its try/catch: writeError is the exception thrown
by the write pipeline (getFileHandle / createWritable / write / close), if
any.  The first component is the resulting file system, the second the failure
signal the caller observes; the catch block only logs the error, so the
caller always observes none. -/
def saveBookmarks (rootHandle : FileSys) (pdfFileName : String)
    (data : BookmarkData) (writeError : Option String) : FileSys × Option String :=
  match writeError with
  | none => (saveBookmarksFs rootHandle pdfFileName data, none)
  | some _e => (rootHandle, none)

/-! ## Output parser (src/lib/parser.ts, parseGeminiOutput) -/

/-- The metadata start token searched for from the end of the raw text. -/
def metadataTokenChars : List Char := '\x7b' :: "\"title\":".data

/-- The default all-null metadata object, as a JSON value. -/
def defaultMetadataJson : Json :=
  Json.obj [("title".data, Json.null), ("author".data, Json.null),
    ("publicationYear".data, Json.null), ("publisher".data, Json.null)]

/-- Match of the page-marker regular expression (open bracket, "page" case
insensitively, optional whitespace, digits, close bracket) anchored at the
start of the list; returns the numeric value of the digits. -/
def pageMarkerAt (l : List Char) : Option Nat :=
  match l with
  | '[' :: r1 =>
    if (r1.take 4).map Char.toLower = "page".data then
      let r2 := (r1.drop 4).dropWhile isJsWhitespace
      let ds := r2.takeWhile Char.isDigit
      if ds ≠ [] ∧ (r2.drop ds.length).head? = some ']' then some (digitsVal ds)
      else none
    else none
  | _ => none

/-- Leftmost match of the page-marker regular expression anywhere in the
list (String.prototype.match semantics). -/
def findPageMarker : List Char → Option Nat
  | [] => none
  | c :: rest =>
    match pageMarkerAt (c :: rest) with
    | some n => some n
    | none => findPageMarker rest

/-- Greedy match of the blank-line separator regular expression (newline,
whitespace star, newline) anchored at the head of l: returns the index, in
the whitespace run following the leading newline, of the last newline the
greedy match consumes. -/
def blankSepAt (l : List Char) : Option Nat :=
  match l with
  | '\n' :: rest => lastIndexOfSub ['\n'] (rest.takeWhile isJsWhitespace)
  | _ => none

/-- Worker for the blank-line split; fuel is the input length plus one, and at
least one character is consumed per step. -/
def splitBlankGo : Nat → List Char → List Char → List (List Char)
  | 0, l, acc => [acc.reverse ++ l]
  | _fuel + 1, [], acc => [acc.reverse]
  | fuel + 1, c :: rest, acc =>
    match blankSepAt (c :: rest) with
    | some i => acc.reverse :: splitBlankGo fuel (rest.drop (i + 1)) []
    | none => splitBlankGo fuel rest (c :: acc)

/-- JavaScript String.prototype.split on the blank-line regular expression. -/
def splitBlank (l : List Char) : List (List Char) :=
  splitBlankGo (l.length + 1) l []

/-- The forEach loop of parseGeminiOutput: thread the element index and the
running current page (initially 1) over the split candidates, skipping
whitespace-only candidates and keeping page-marker text verbatim. -/
def buildParagraphs (now : Nat) (paras : List (List Char)) : List Paragraph :=
  (paras.foldl
    (fun (st : Nat × Nat × List Paragraph) para =>
      let trimmed := jsTrim para
      if trimmed = [] then (st.1 + 1, st.2.1, st.2.2)
      else
        let newPage :=
          match findPageMarker trimmed with
          | some n => n
          | none => st.2.1
        (st.1 + 1, newPage,
          st.2.2 ++ [{ id := "p-" ++ toString st.1 ++ "-" ++ toString now,
                       text := String.mk trimmed, page := newPage }]))
    (0, 1, [])).2.2

/-- Step 1 of parseGeminiOutput (src/lib/parser.ts lines 446-470): locate the
last occurrence of the metadata start token and the last closing brace, try
to parse that span as JSON, and on success strip it from the content; on any
failure keep the default metadata and the raw text unchanged. -/
def extractMetadata (raw : List Char) : Json × List Char :=
  match lastIndexOfSub metadataTokenChars raw with
  | none => (defaultMetadataJson, raw)
  | some jsonStartParams =>
    match lastIndexOfSub ['\x7d'] raw with
    | none => (defaultMetadataJson, raw)
    | some jsonEndParams =>
      if jsonStartParams < jsonEndParams then
        match jsonParse
            ((raw.drop jsonStartParams).take (jsonEndParams + 1 - jsonStartParams)) with
        | some m => (m, jsTrim (raw.take jsonStartParams))
        | none => (defaultMetadataJson, raw)
      else (defaultMetadataJson, raw)

/-- parseGeminiOutput (src/lib/parser.ts lines 444-506).  Date.now() is passed
explicitly as now. -/
def parseGeminiOutput (rawText : String) (now : Nat) : ParsedDocument :=
  { metadata := (extractMetadata rawText.data).1,
    paragraphs := buildParagraphs now (splitBlank (extractMetadata rawText.data).2),
    rawText := String.mk (extractMetadata rawText.data).2 }

/-! ## Model gateway (src/lib/gemini.ts, revision of part 010) -/

/-- JavaScript String.prototype.includes on character lists. -/
def containsSubList (pat : List Char) : List Char → Bool
  | [] => pat.isPrefixOf []
  | c :: rest => pat.isPrefixOf (c :: rest) || containsSubList pat rest

/-- JavaScript String.prototype.includes. -/
def strIncludes (s pat : String) : Bool := containsSubList pat.data s.data

/-- The hard-coded ordered fallback list of analyzePdf. -/
def fallbackCandidates : List String :=
  ["gemini-2.0-flash", "gemini-1.5-flash", "gemini-1.5-pro", "gemini-pro"]

/-- The fallback loop of analyzePdf: try each candidate in order against the
gateway, returning the first success together with the candidate that served
it; each failure inside the loop is logged and skipped. -/
def tryFallbacks (gateway : String → Except String String) :
    List String → Option (String × String)
  | [] => none
  | candidate :: cs =>
    match gateway candidate with
    | .ok text => some (candidate, text)
    | .error _ => tryFallbacks gateway cs

/-- The user-facing rate-limit message of analyzePdf (429 branch). -/
def rateLimitMessage (errMsg : String) : String :=
  "### ⚠️ 분석 실패: 사용량 제한 초과 (429 Error)\n\n**구글 Gemini API의 무료 사용량(Free Tier)을 초과했습니다.**\n\n**💡 해결 방법:**\n1. ⏳ **잠시 기다리기**: 약 1분 정도 기다렸다가 다시 시도해 주세요. (무료 플랜은 분당 요청 횟수가 제한됩니다)\n2. 💳 **유료로 제한 풀기**:\n   [Google Cloud Console Billing](https://console.cloud.google.com/billing)에 접속하여 이 프로젝트에 **결제 계정**을 연결해 주세요.\n   > **알림:** 결제 계정을 연결하면 **유료(Pay-as-you-go)** 요금제로 전환되며, 사용량에 따라 요금이 부과되지만 제한 없이 이용할 수 있습니다.\n\n---\n*(상세 에러 내용)*: " ++ errMsg

/-- The user-facing model-not-found message of analyzePdf (404 branch). -/
def notFoundMessage (modelName errMsg : String) : String :=
  "### 🚫 분석 실패: 모델을 찾을 수 없음 (404 Error)\n\n선택하신 모델(**" ++ modelName ++
  "**)을 현재 사용할 수 없습니다.\n\n**💡 해결 방법:**\n1. ⚙️ **설정(Settings)** 메뉴를 열어주세요.\n2. **\"🔌 Check Connection\"** 버튼을 눌러 사용 가능한 모델 목록을 새로고침하세요.\n3. 목록에서 **gemini-2.0-flash** 또는 **gemini-1.5-flash** 등 다른 모델을 선택하고 저장해 주세요.\n\n---\n*(상세 에러 내용)*: " ++ errMsg

/-- The generic error message of analyzePdf. -/
def genericErrorMessage (errMsg : String) : String :=
  "### 🚫 오류 발생\n        \n오류가 발생했습니다: " ++ errMsg ++
  "\n        \nAPI 키 설정이나 모델 설정을 다시 확인해 주세요."

/-- analyzePdf (gemini.ts of part 010, lines 23-104).  The remote service is
the gateway parameter: model identifier to response text or thrown error
message.  The document bytes and prompt do not influence the modelled control
flow.  A missing API key throws; every service failure is converted to
displayable text and returned normally. -/
def analyzePdf (gateway : String → Except String String) (apiKey : String)
    (modelName : String) : Except String String :=
  if apiKey = "" then Except.error "API Key is missing"
  else
    match gateway modelName with
    | .ok text => .ok text
    | .error errMsg =>
      let attempted :=
        if strIncludes errMsg "404" || strIncludes errMsg "429" then
          tryFallbacks gateway (fallbackCandidates.filter (fun m => m ≠ modelName))
        else none
      match attempted with
      | some (candidate, text) =>
        .ok (text ++ "\n\n(Note: Analysis performed using fallback model: " ++
          candidate ++ ")")
      | none =>
        if strIncludes errMsg "429" then .ok (rateLimitMessage errMsg)
        else if strIncludes errMsg "404" then .ok (notFoundMessage modelName errMsg)
        else .ok (genericErrorMessage errMsg)

/-- A concrete gateway used to exhibit the fallback behaviour on explicit
inputs: it serves only the model gemini-1.5-pro and fails every other model
with a model-not-found message. -/
def probeGateway : String → Except String String :=
  fun m =>
    if m = "gemini-1.5-pro" then Except.ok "OUT"
    else Except.error "404 model not found"

/-! ## Search panel and citation formatter (src/components/SearchPanel.tsx) -/

/-- A Fuse.js search hit (the item field is all the component consumes). -/
structure FuseResult where
  item : Paragraph

/-- The results memo of SearchPanel: an empty (falsy) query short-circuits to
the empty list before the Fuse index is consulted; the Fuse search itself is
the external library, abstracted as a function of the query. -/
def searchPanelResults (fuseSearch : String → List FuseResult) (query : String) :
    List Paragraph :=
  if query = "" then [] else (fuseSearch query).map (fun r => r.item)

/-- JavaScript x || dflt for a string-or-null value: null and the empty
string are falsy. -/
def jsStringOr (v : Option String) (dflt : String) : String :=
  match v with
  | none => dflt
  | some s => if s = "" then dflt else s

/-- formatCitation (SearchPanel.tsx lines 43-48). -/
def formatCitation (metadata : CitationMetadata) (para : Paragraph) : String :=
  jsStringOr metadata.author "Unknown Author" ++ ", *" ++
    jsStringOr metadata.title "Unknown Title" ++ "* (" ++
    jsStringOr metadata.publicationYear "n.d." ++ "), p. " ++
    toString para.page ++ "."

/-- The author template field as the specification words it (after
amendment): the author, or the fixed default when absent or empty. -/
def specAuthorField (metadata : CitationMetadata) : String :=
  match metadata.author with
  | some a => if a = "" then "Unknown Author" else a
  | none => "Unknown Author"

/-- The title template field as the specification words it. -/
def specTitleField (metadata : CitationMetadata) : String :=
  match metadata.title with
  | some t => if t = "" then "Unknown Title" else t
  | none => "Unknown Title"

/-- The year template field as the specification words it. -/
def specYearField (metadata : CitationMetadata) : String :=
  match metadata.publicationYear with
  | some y => if y = "" then "n.d." else y
  | none => "n.d."

/-! ## Annotation handlers (src/app/page.tsx) -/

/-- The record update performed by handleAddBookmark (page.tsx lines
179-199): spread the previous record and append one new SavedCitation whose
id and timestamp both come from Date.now(), passed here as now. -/
def handleAddBookmark (data : BookmarkData) (text : String) (page : Nat)
    (now : Nat) : BookmarkData :=
  { data with
    savedCitations := data.savedCitations ++
      [{ id := toString now, text := text, page := page, timestamp := now,
         highlight := none }] }

/-- The record update performed by deleteBookmark (page.tsx lines 201-209):
spread the previous record and keep the citations whose id differs. -/
def deleteBookmark (data : BookmarkData) (cid : String) : BookmarkData :=
  { data with
    savedCitations := data.savedCitations.filter (fun c => c.id != cid) }

/-! ## Round trip of the JSON printer and parser

The following lemmas establish that jsonParse recovers exactly the value that
printJson emitted; they back the save/load idempotence claim about the
annotation store. -/

lemma takeWhile_append_of_all {α : Type} {p : α → Bool} :
    ∀ (xs ys : List α), (∀ c ∈ xs, p c = true) →
      List.takeWhile p (xs ++ ys) = xs ++ List.takeWhile p ys := by
  intro xs ys h
  induction xs with
  | nil => simp
  | cons c cs ih =>
    have hc : p c = true := h c (by simp)
    simp only [List.cons_append, List.takeWhile_cons, hc, if_true]
    rw [ih (fun d hd => h d (by simp [hd]))]

lemma dropWhile_append_of_all {α : Type} {p : α → Bool} :
    ∀ (xs ys : List α), (∀ c ∈ xs, p c = true) →
      List.dropWhile p (xs ++ ys) = List.dropWhile p ys := by
  intro xs ys h
  induction xs with
  | nil => simp
  | cons c cs ih =>
    have hc : p c = true := h c (by simp)
    simp only [List.cons_append, List.dropWhile_cons, hc, if_true]
    exact ih (fun d hd => h d (by simp [hd]))

lemma takeWhile_eq_nil_of_head {α : Type} {p : α → Bool} (ys : List α)
    (h : ∀ c, ys.head? = some c → p c = false) : List.takeWhile p ys = [] := by
  cases ys with
  | nil => rfl
  | cons c cs => simp [List.takeWhile_cons, h c rfl]

lemma dropWhile_eq_self_of_head {α : Type} {p : α → Bool} (ys : List α)
    (h : ∀ c, ys.head? = some c → p c = false) : List.dropWhile p ys = ys := by
  cases ys with
  | nil => rfl
  | cons c cs => simp [List.dropWhile_cons, h c rfl]

lemma charOfNat_toNat (c : Char) (h : c.toNat < 55296) : Char.ofNat c.toNat = c := by
  have hv : Nat.isValidChar c.toNat := Or.inl (by omega)
  unfold Char.ofNat
  rw [dif_pos hv]
  apply Char.ext
  show (Char.ofNatAux c.toNat hv).val = c.val
  unfold Char.ofNatAux
  apply UInt32.ext
  simp [UInt32.toNat, Char.toNat]

lemma parseHexDigit_hexDigitChar (n : Nat) (h : n < 16) :
    parseHexDigit (hexDigitChar n) = some n := by
  interval_cases n <;> decide

lemma digitChar_toNat (n : Nat) (h : n < 10) : (digitChar n).toNat = 48 + n := by
  interval_cases n <;> decide

lemma digitChar_isDigit (n : Nat) (h : n < 10) : (digitChar n).isDigit = true := by
  interval_cases n <;> decide

lemma printNat_ne_nil (n : Nat) : printNat n ≠ [] := by
  rw [printNat]
  split <;> simp

lemma printNat_digits (n : Nat) : ∀ c ∈ printNat n, c.isDigit = true := by
  induction n using Nat.strong_induction_on with
  | _ n ih =>
    rw [printNat]
    split
    · intro c hc
      rw [List.mem_singleton] at hc
      subst hc
      exact digitChar_isDigit n (by omega)
    · intro c hc
      rcases List.mem_append.mp hc with h1 | h2
      · exact ih (n / 10) (Nat.div_lt_self (by omega) (by omega)) c h1
      · rw [List.mem_singleton] at h2
        subst h2
        exact digitChar_isDigit (n % 10) (Nat.mod_lt n (by omega))

lemma digitsVal_append_digit (a : List Char) (d : Char) :
    digitsVal (a ++ [d]) = 10 * digitsVal a + (d.toNat - 48) := by
  simp [digitsVal, List.foldl_append]

lemma digitsVal_printNat (n : Nat) : digitsVal (printNat n) = n := by
  induction n using Nat.strong_induction_on with
  | _ n ih =>
    rw [printNat]
    split
    · rename_i h
      simp [digitsVal, digitChar_toNat n h]
    · rename_i h
      rw [digitsVal_append_digit,
        ih (n / 10) (Nat.div_lt_self (by omega) (by omega)),
        digitChar_toNat (n % 10) (Nat.mod_lt n (by omega))]
      omega

lemma parseNum_printNat (n : Nat) (rest : List Char)
    (h : ∀ c, rest.head? = some c → c.isDigit = false) :
    parseNum (printNat n ++ rest) = some (n, rest) := by
  unfold parseNum
  rw [takeWhile_append_of_all _ _ (printNat_digits n),
    takeWhile_eq_nil_of_head rest h,
    dropWhile_append_of_all _ _ (printNat_digits n),
    dropWhile_eq_self_of_head rest h]
  simp [List.isEmpty_eq_true, printNat_ne_nil n, digitsVal_printNat n]

lemma skipWs_cons_of_ws (c : Char) (l : List Char) (h : isJsonWs c = true) :
    skipWs (c :: l) = skipWs l := by
  simp [skipWs, List.dropWhile_cons, h]

lemma skipWs_cons_of_not_ws (c : Char) (l : List Char) (h : isJsonWs c = false) :
    skipWs (c :: l) = c :: l := by
  simp [skipWs, List.dropWhile_cons, h]

lemma skipWs_replicate_space (k : Nat) (l : List Char) :
    skipWs (List.replicate k ' ' ++ l) = skipWs l := by
  apply dropWhile_append_of_all
  intro c hc
  rw [List.eq_of_mem_replicate hc]
  rfl

lemma skipWs_newline (l : List Char) : skipWs ('\n' :: l) = skipWs l :=
  skipWs_cons_of_ws _ _ (by decide)

lemma parseStringBody_escape (s : List Char) :
    ∀ rest : List Char, parseStringBody (escapeStr s ++ '"' :: rest) = some (s, rest) := by
  induction s with
  | nil =>
    intro rest
    show parseStringBody ('"' :: rest) = _
    rw [parseStringBody, if_pos rfl]
  | cons c cs ih =>
    intro rest
    show parseStringBody ((escChar c ++ escapeStr cs) ++ '"' :: rest) = _
    rw [List.append_assoc, escChar]
    split_ifs with h1 h2 h3 h4 h5 h6 h7 h8
    · subst h1
      show parseStringBody ('\\' :: ('"' :: (escapeStr cs ++ '"' :: rest))) = _
      rw [parseStringBody, if_neg (by decide), if_pos rfl, parseEscape, if_pos rfl,
        ih rest]
      rfl
    · subst h2
      show parseStringBody ('\\' :: ('\\' :: (escapeStr cs ++ '"' :: rest))) = _
      rw [parseStringBody, if_neg (by decide), if_pos rfl, parseEscape,
        if_neg (by decide), if_pos rfl, ih rest]
      rfl
    · subst h3
      show parseStringBody ('\\' :: ('n' :: (escapeStr cs ++ '"' :: rest))) = _
      rw [parseStringBody, if_neg (by decide), if_pos rfl, parseEscape,
        if_neg (by decide), if_neg (by decide), if_neg (by decide), if_pos rfl, ih rest]
      rfl
    · subst h4
      show parseStringBody ('\\' :: ('t' :: (escapeStr cs ++ '"' :: rest))) = _
      rw [parseStringBody, if_neg (by decide), if_pos rfl, parseEscape,
        if_neg (by decide), if_neg (by decide), if_neg (by decide), if_neg (by decide),
        if_pos rfl, ih rest]
      rfl
    · subst h5
      show parseStringBody ('\\' :: ('r' :: (escapeStr cs ++ '"' :: rest))) = _
      rw [parseStringBody, if_neg (by decide), if_pos rfl, parseEscape,
        if_neg (by decide), if_neg (by decide), if_neg (by decide), if_neg (by decide),
        if_neg (by decide), if_pos rfl, ih rest]
      rfl
    · subst h6
      show parseStringBody ('\\' :: ('b' :: (escapeStr cs ++ '"' :: rest))) = _
      rw [parseStringBody, if_neg (by decide), if_pos rfl, parseEscape,
        if_neg (by decide), if_neg (by decide), if_neg (by decide), if_neg (by decide),
        if_neg (by decide), if_neg (by decide), if_pos rfl, ih rest]
      rfl
    · subst h7
      show parseStringBody ('\\' :: ('f' :: (escapeStr cs ++ '"' :: rest))) = _
      rw [parseStringBody, if_neg (by decide), if_pos rfl, parseEscape,
        if_neg (by decide), if_neg (by decide), if_neg (by decide), if_neg (by decide),
        if_neg (by decide), if_neg (by decide), if_neg (by decide), if_pos rfl, ih rest]
      rfl
    · show parseStringBody
        ('\\' :: ('u' :: '0' :: '0' :: hexDigitChar (c.toNat / 16) ::
          hexDigitChar (c.toNat % 16) :: (escapeStr cs ++ '"' :: rest))) = _
      rw [parseStringBody, if_neg (by decide), if_pos rfl, parseEscape,
        if_neg (by decide), if_neg (by decide), if_neg (by decide), if_neg (by decide),
        if_neg (by decide), if_neg (by decide), if_neg (by decide), if_neg (by decide),
        if_pos rfl, parseUnicodeEscape,
        show parseHexDigit '0' = some 0 from rfl,
        parseHexDigit_hexDigitChar (c.toNat / 16) (by omega),
        parseHexDigit_hexDigitChar (c.toNat % 16) (by omega)]
      show consStrResult (Char.ofNat (4096 * 0 + 256 * 0 + 16 * (c.toNat / 16) + c.toNat % 16))
        (parseStringBody (escapeStr cs ++ '"' :: rest)) = _
      have hmod : 4096 * 0 + 256 * 0 + 16 * (c.toNat / 16) + c.toNat % 16 = c.toNat := by
        omega
      rw [hmod, charOfNat_toNat c (by omega), ih rest]
      rfl
    · show parseStringBody (c :: (escapeStr cs ++ '"' :: rest)) = _
      rw [parseStringBody, if_neg h1, if_neg h2, ih rest]
      rfl

lemma printNat_cons (n : Nat) : ∃ c cs, printNat n = c :: cs ∧ c.isDigit = true := by
  cases h : printNat n with
  | nil => exact absurd h (printNat_ne_nil n)
  | cons c cs =>
    exact ⟨c, cs, rfl, printNat_digits n c (by rw [h]; exact List.mem_cons_self c cs)⟩

lemma isDigit_not_jsonWs (c : Char) (h : c.isDigit = true) : isJsonWs c = false := by
  cases hw : isJsonWs c
  · rfl
  · exfalso
    have hd : c = ' ' ∨ c = '\t' ∨ c = '\n' ∨ c = '\r' := by
      simpa [isJsonWs, or_assoc] using hw
    rcases hd with h1 | h1 | h1 | h1 <;> (subst h1; exact absurd h (by decide))

lemma isDigit_ne_starters (c : Char) (h : c.isDigit = true) :
    c ≠ 'n' ∧ c ≠ 't' ∧ c ≠ 'f' ∧ c ≠ '"' ∧ c ≠ '[' ∧ c ≠ '\x7b' := by
  refine ⟨?_, ?_, ?_, ?_, ?_, ?_⟩ <;> (intro he; subst he; exact absurd h (by decide))

lemma printJson_starts (ind : Nat) (j : Json) :
    ∃ c cs, printJson ind j = c :: cs ∧ isJsonWs c = false ∧ c ≠ ']' ∧ c ≠ '\x7d' := by
  cases j with
  | null => exact ⟨'n', ['u', 'l', 'l'], by rw [printJson], by decide, by decide, by decide⟩
  | bool b =>
    cases b with
    | true => exact ⟨'t', ['r', 'u', 'e'], by rw [printJson], by decide, by decide, by decide⟩
    | false =>
      exact ⟨'f', ['a', 'l', 's', 'e'], by rw [printJson], by decide, by decide, by decide⟩
  | num n =>
    obtain ⟨c, cs, hpn, hdig⟩ := printNat_cons n
    refine ⟨c, cs, by rw [printJson, hpn], isDigit_not_jsonWs c hdig, ?_, ?_⟩
    · intro he; subst he; exact absurd hdig (by decide)
    · intro he; subst he; exact absurd hdig (by decide)
  | str s =>
    exact ⟨'"', escapeStr s ++ ['"'], by rw [printJson], by decide, by decide, by decide⟩
  | arr es =>
    cases es with
    | nil => exact ⟨'[', [']'], by rw [printJson], by decide, by decide, by decide⟩
    | cons e es2 =>
      have h : printJson ind (Json.arr (e :: es2)) =
          '[' :: ('\n' :: (printItems (ind + 1) e es2 ++
            '\n' :: (List.replicate (2 * ind) ' ' ++ [']']))) := by
        rw [printJson]
      exact ⟨'[', _, h, by decide, by decide, by decide⟩
  | obj fields =>
    cases fields with
    | nil => exact ⟨'\x7b', ['\x7d'], by rw [printJson], by decide, by decide, by decide⟩
    | cons f fs =>
      obtain ⟨k, v⟩ := f
      have h : printJson ind (Json.obj ((k, v) :: fs)) =
          '\x7b' :: ('\n' :: (printFields (ind + 1) k v fs ++
            '\n' :: (List.replicate (2 * ind) ' ' ++ ['\x7d']))) := by
        rw [printJson]
      exact ⟨'\x7b', _, h, by decide, by decide, by decide⟩

lemma skipWs_printJson_append (ind : Nat) (j : Json) (X : List Char) :
    skipWs (printJson ind j ++ X) = printJson ind j ++ X := by
  obtain ⟨c, cs, hp, hws, _, _⟩ := printJson_starts ind j
  rw [hp]
  simp only [List.cons_append]
  exact skipWs_cons_of_not_ws c _ hws

lemma skipWs_printItems_head (ind : Nat) (e : Json) (es : List Json) (X : List Char) :
    ∃ c cs, skipWs (printItems ind e es ++ X) = c :: cs ∧
      c ≠ ']' ∧ c ≠ '\x7d' := by
  obtain ⟨c, cs, hp, hws, hbr, hbc⟩ := printJson_starts ind e
  cases es with
  | nil =>
    refine ⟨c, cs ++ X, ?_, hbr, hbc⟩
    rw [printItems, List.append_assoc, skipWs_replicate_space, hp]
    simp only [List.cons_append]
    exact skipWs_cons_of_not_ws c _ hws
  | cons e2 es2 =>
    have h : skipWs (printItems ind e (e2 :: es2) ++ X) =
        c :: (cs ++ (',' :: '\n' :: (printItems ind e2 es2 ++ X))) := by
      rw [printItems]
      simp only [List.append_assoc, List.cons_append]
      rw [skipWs_replicate_space, hp]
      simp only [List.cons_append]
      rw [skipWs_cons_of_not_ws c _ hws]
    exact ⟨c, _, h, hbr, hbc⟩

lemma skipWs_printFields_cons (ind : Nat) (kk : List Char) (v : Json)
    (fs : List (List Char × Json)) (X : List Char) :
    ∃ cs, skipWs (printFields ind kk v fs ++ X) = '"' :: cs := by
  cases fs with
  | nil =>
    have h : skipWs (printFields ind kk v [] ++ X) =
        '"' :: (escapeStr kk ++ '"' :: ':' :: ' ' :: (printJson ind v ++ X)) := by
      rw [printFields]
      simp only [List.append_assoc, List.cons_append]
      rw [skipWs_replicate_space]
      rw [skipWs_cons_of_not_ws '"' _ (by decide)]
    exact ⟨_, h⟩
  | cons f2 fs2 =>
    obtain ⟨k2, v2⟩ := f2
    have h : skipWs (printFields ind kk v ((k2, v2) :: fs2) ++ X) =
        '"' :: (escapeStr kk ++ '"' :: ':' :: ' ' ::
          (printJson ind v ++ ',' :: '\n' :: (printFields ind k2 v2 fs2 ++ X))) := by
      rw [printFields]
      simp only [List.append_assoc, List.cons_append]
      rw [skipWs_replicate_space]
      rw [skipWs_cons_of_not_ws '"' _ (by decide)]
    exact ⟨_, h⟩

lemma skipWs_rbracket (l : List Char) : skipWs (']' :: l) = ']' :: l :=
  skipWs_cons_of_not_ws _ _ (by decide)

lemma skipWs_rbrace (l : List Char) : skipWs ('\x7d' :: l) = '\x7d' :: l :=
  skipWs_cons_of_not_ws _ _ (by decide)

lemma skipWs_comma (l : List Char) : skipWs (',' :: l) = ',' :: l :=
  skipWs_cons_of_not_ws _ _ (by decide)

lemma skipWs_colon (l : List Char) : skipWs (':' :: l) = ':' :: l :=
  skipWs_cons_of_not_ws _ _ (by decide)

lemma skipWs_space_cons (l : List Char) : skipWs (' ' :: l) = skipWs l :=
  skipWs_cons_of_ws _ _ (by decide)

lemma parseValue_quote (f : Nat) (l : List Char) :
    parseValue (f + 1) ('"' :: l) =
      (match parseStringBody l with
       | some (s2, r2) => some (Json.str s2, r2)
       | none => none) := rfl

lemma parseValue_bracket (f : Nat) (l : List Char) :
    parseValue (f + 1) ('[' :: l) =
      (if (skipWs l).head? = some ']' then some (Json.arr [], (skipWs l).tail)
       else
         match parseItems f (skipWs l) with
         | some (es, r) => some (Json.arr es, r)
         | none => none) := rfl

lemma parseValue_brace (f : Nat) (l : List Char) :
    parseValue (f + 1) ('\x7b' :: l) =
      (if (skipWs l).head? = some '\x7d' then some (Json.obj [], (skipWs l).tail)
       else
         match parseFields f (skipWs l) with
         | some (fs, r) => some (Json.obj fs, r)
         | none => none) := rfl

mutual

/-- The parser recovers any printed value: parseValue inverts printJson. -/
theorem parseValue_printJson : ∀ (j : Json) (ind fuel : Nat) (rest : List Char),
    (printJson ind j).length < fuel →
    (∀ c, rest.head? = some c → c.isDigit = false) →
    parseValue fuel (printJson ind j ++ rest) = some (j, rest)
  | .null, ind, fuel, rest, hfuel, hrest => by
    cases fuel with
    | zero => exact absurd hfuel (Nat.not_lt_zero _)
    | succ f =>
      rw [printJson]
      rfl
  | .bool true, ind, fuel, rest, hfuel, hrest => by
    cases fuel with
    | zero => exact absurd hfuel (Nat.not_lt_zero _)
    | succ f =>
      rw [printJson]
      rfl
  | .bool false, ind, fuel, rest, hfuel, hrest => by
    cases fuel with
    | zero => exact absurd hfuel (Nat.not_lt_zero _)
    | succ f =>
      rw [printJson]
      rfl
  | .num n, ind, fuel, rest, hfuel, hrest => by
    cases fuel with
    | zero => exact absurd hfuel (Nat.not_lt_zero _)
    | succ f =>
      rw [printJson]
      obtain ⟨c, cs, hpn, hdig⟩ := printNat_cons n
      obtain ⟨hn, ht, hf2, hq, hbr, hbc⟩ := isDigit_ne_starters c hdig
      rw [hpn]
      show parseValue (f + 1) (c :: (cs ++ rest)) = some (Json.num n, rest)
      rw [parseValue, if_neg hn, if_neg ht, if_neg hf2, if_neg hq, if_neg hbr,
        if_neg hbc, if_pos hdig]
      have hp : parseNum (c :: (cs ++ rest)) = some (n, rest) := by
        have h2 := parseNum_printNat n rest hrest
        rw [hpn] at h2
        simpa using h2
      rw [hp]
  | .str s, ind, fuel, rest, hfuel, hrest => by
    cases fuel with
    | zero => exact absurd hfuel (Nat.not_lt_zero _)
    | succ f =>
      rw [printJson]
      simp only [List.cons_append, List.append_assoc, List.singleton_append,
        List.nil_append]
      rw [parseValue_quote, parseStringBody_escape s rest]
  | .arr [], ind, fuel, rest, hfuel, hrest => by
    cases fuel with
    | zero => exact absurd hfuel (Nat.not_lt_zero _)
    | succ f =>
      rw [printJson]
      rfl
  | .arr (e :: es2), ind, fuel, rest, hfuel, hrest => by
    cases fuel with
    | zero => exact absurd hfuel (Nat.not_lt_zero _)
    | succ f =>
      rw [printJson] at hfuel ⊢
      simp only [List.cons_append, List.append_assoc, List.singleton_append,
        List.nil_append]
      rw [parseValue_bracket, skipWs_newline]
      obtain ⟨c, cs, hskip, hc1, hc2⟩ :=
        skipWs_printItems_head (ind + 1) e es2
          ('\n' :: (List.replicate (2 * ind) ' ' ++ ']' :: rest))
      rw [hskip]
      rw [if_neg (by simp only [List.head?_cons, Option.some.injEq]; exact hc1)]
      have hlen : (printItems (ind + 1) e es2).length + 2 * ind + 2 < f := by
        simp only [List.length_cons, List.length_append, List.length_replicate] at hfuel
        omega
      have hit := parseItems_printItems e es2 (ind + 1) (2 * ind) f rest hlen
      rw [hskip] at hit
      rw [hit]
  | .obj [], ind, fuel, rest, hfuel, hrest => by
    cases fuel with
    | zero => exact absurd hfuel (Nat.not_lt_zero _)
    | succ f =>
      rw [printJson]
      rfl
  | .obj ((kk, v) :: fs), ind, fuel, rest, hfuel, hrest => by
    cases fuel with
    | zero => exact absurd hfuel (Nat.not_lt_zero _)
    | succ f =>
      rw [printJson] at hfuel ⊢
      simp only [List.cons_append, List.append_assoc, List.singleton_append,
        List.nil_append]
      rw [parseValue_brace, skipWs_newline]
      obtain ⟨cs, hskip⟩ :=
        skipWs_printFields_cons (ind + 1) kk v fs
          ('\n' :: (List.replicate (2 * ind) ' ' ++ '\x7d' :: rest))
      rw [hskip]
      rw [if_neg (by simp only [List.head?_cons, Option.some.injEq]; decide)]
      have hlen : (printFields (ind + 1) kk v fs).length + 2 * ind + 2 < f := by
        simp only [List.length_cons, List.length_append, List.length_replicate] at hfuel
        omega
      have hfl := parseFields_printFields kk v fs (ind + 1) (2 * ind) f rest hlen
      rw [hskip] at hfl
      rw [hfl]
termination_by j => sizeOf j
decreasing_by all_goals (simp; try omega)

/-- The parser recovers a printed, comma-separated item list followed by its
closing bracket line. -/
theorem parseItems_printItems : ∀ (e : Json) (es : List Json) (ind k fuel : Nat)
    (rest : List Char),
    (printItems ind e es).length + k + 2 < fuel →
    parseItems fuel
        (skipWs (printItems ind e es ++ '\n' :: (List.replicate k ' ' ++ ']' :: rest))) =
      some (e :: es, rest)
  | e, [], ind, k, fuel, rest, hfuel => by
    cases fuel with
    | zero => exact absurd hfuel (Nat.not_lt_zero _)
    | succ f =>
      rw [printItems] at hfuel ⊢
      simp only [List.length_append, List.length_replicate] at hfuel
      rw [List.append_assoc, skipWs_replicate_space, skipWs_printJson_append, parseItems]
      have hval := parseValue_printJson e ind f
        ('\n' :: (List.replicate k ' ' ++ ']' :: rest)) (by omega)
        (by intro c hc; simp only [List.head?_cons, Option.some.injEq] at hc
            subst hc; decide)
      rw [hval]
      simp only [skipWs_newline, skipWs_replicate_space, skipWs_rbracket,
        List.head?_cons, List.tail_cons, Option.some.injEq, reduceCtorEq]
      rw [if_neg (show (']' : Char) ≠ ',' by decide), if_pos trivial]
  | e, e2 :: es2, ind, k, fuel, rest, hfuel => by
    cases fuel with
    | zero => exact absurd hfuel (Nat.not_lt_zero _)
    | succ f =>
      rw [printItems] at hfuel ⊢
      simp only [List.length_append, List.length_replicate, List.length_cons] at hfuel
      simp only [List.append_assoc, List.cons_append]
      rw [skipWs_replicate_space, skipWs_printJson_append, parseItems]
      have hval := parseValue_printJson e ind f
        (',' :: '\n' :: (printItems ind e2 es2 ++
          '\n' :: (List.replicate k ' ' ++ ']' :: rest))) (by omega)
        (by intro c hc; simp only [List.head?_cons, Option.some.injEq] at hc
            subst hc; decide)
      rw [hval]
      simp only [skipWs_comma, List.head?_cons, List.tail_cons, Option.some.injEq]
      rw [if_pos trivial]
      have hih := parseItems_printItems e2 es2 ind k f rest (by omega)
      rw [skipWs_newline, hih]
termination_by e es => 1 + sizeOf e + sizeOf es
decreasing_by all_goals (simp; try omega)

/-- The parser recovers a printed, comma-separated field list followed by its
closing brace line. -/
theorem parseFields_printFields : ∀ (kk : List Char) (v : Json)
    (fs : List (List Char × Json)) (ind m fuel : Nat) (rest : List Char),
    (printFields ind kk v fs).length + m + 2 < fuel →
    parseFields fuel
        (skipWs (printFields ind kk v fs ++ '\n' :: (List.replicate m ' ' ++ '\x7d' :: rest))) =
      some ((kk, v) :: fs, rest)
  | kk, v, [], ind, m, fuel, rest, hfuel => by
    cases fuel with
    | zero => exact absurd hfuel (Nat.not_lt_zero _)
    | succ f =>
      rw [printFields] at hfuel ⊢
      simp only [List.length_append, List.length_replicate, List.length_cons] at hfuel
      simp only [List.append_assoc, List.cons_append]
      rw [skipWs_replicate_space, skipWs_cons_of_not_ws '"' _ (by decide), parseFields,
        if_pos rfl]
      rw [parseStringBody_escape kk
        (':' :: ' ' :: (printJson ind v ++
          '\n' :: (List.replicate m ' ' ++ '\x7d' :: rest)))]
      simp only [skipWs_colon, List.head?_cons, List.tail_cons, Option.some.injEq]
      rw [if_pos trivial]
      have hval := parseValue_printJson v ind f
        ('\n' :: (List.replicate m ' ' ++ '\x7d' :: rest)) (by omega)
        (by intro c hc; simp only [List.head?_cons, Option.some.injEq] at hc
            subst hc; decide)
      rw [skipWs_space_cons, skipWs_printJson_append, hval]
      simp only [skipWs_newline, skipWs_replicate_space, skipWs_rbrace,
        List.head?_cons, List.tail_cons, Option.some.injEq, reduceCtorEq]
      rw [if_neg (show ('\x7d' : Char) ≠ ',' by decide), if_pos trivial]
  | kk, v, (k2, v2) :: fs2, ind, m, fuel, rest, hfuel => by
    cases fuel with
    | zero => exact absurd hfuel (Nat.not_lt_zero _)
    | succ f =>
      rw [printFields] at hfuel ⊢
      simp only [List.length_append, List.length_replicate, List.length_cons] at hfuel
      simp only [List.append_assoc, List.cons_append]
      rw [skipWs_replicate_space, skipWs_cons_of_not_ws '"' _ (by decide), parseFields,
        if_pos rfl]
      rw [parseStringBody_escape kk
        (':' :: ' ' :: (printJson ind v ++
          ',' :: '\n' :: (printFields ind k2 v2 fs2 ++
            '\n' :: (List.replicate m ' ' ++ '\x7d' :: rest))))]
      simp only [skipWs_colon, List.head?_cons, List.tail_cons, Option.some.injEq]
      rw [if_pos trivial]
      have hval := parseValue_printJson v ind f
        (',' :: '\n' :: (printFields ind k2 v2 fs2 ++
          '\n' :: (List.replicate m ' ' ++ '\x7d' :: rest))) (by omega)
        (by intro c hc; simp only [List.head?_cons, Option.some.injEq] at hc
            subst hc; decide)
      rw [skipWs_space_cons, skipWs_printJson_append, hval]
      simp only [skipWs_comma, List.head?_cons, List.tail_cons, Option.some.injEq]
      rw [if_pos trivial]
      have hih := parseFields_printFields k2 v2 fs2 ind m f rest (by omega)
      rw [skipWs_newline, hih]
termination_by _ v fs => 1 + sizeOf v + sizeOf fs
decreasing_by all_goals (simp; try omega)

end

/-- jsonParse inverts printJson: parsing a pretty-printed value yields exactly
that value. -/
theorem jsonParse_printJson (j : Json) (ind : Nat) :
    jsonParse (printJson ind j) = some j := by
  unfold jsonParse
  have h1 : skipWs (printJson ind j) = printJson ind j := by
    have h2 := skipWs_printJson_append ind j []
    simpa using h2
  rw [h1]
  have h3 : printJson ind j ++ ([] : List Char) = printJson ind j := by simp
  have hval := parseValue_printJson j ind (2 * (printJson ind j).length + 2) []
    (by omega) (by intro c hc; simp at hc)
  rw [h3] at hval
  rw [hval]
  rfl

/-! ## Sidecar naming lemmas -/

lemma countSub_pos (pat : List Char) (hp : pat ≠ []) :
    ∀ a : List Char, 1 ≤ countSub pat (a ++ pat) := by
  intro a
  induction a with
  | nil =>
    obtain ⟨c, cs, rfl⟩ : ∃ c cs, pat = c :: cs := by
      cases pat with
      | nil => exact absurd rfl hp
      | cons c cs => exact ⟨c, cs, rfl⟩
    rw [List.nil_append, countSub,
      if_pos (List.isPrefixOf_iff_prefix.mpr (List.prefix_refl _))]
    omega
  | cons c a2 ih =>
    rw [List.cons_append, countSub]
    split <;> omega

lemma replaceFirst_at_end (pat rep : List Char) (hp : pat ≠ []) :
    ∀ a : List Char, countSub pat (a ++ pat) = 1 →
      replaceFirst pat rep (a ++ pat) = a ++ rep := by
  intro a
  induction a with
  | nil =>
    intro _h1
    obtain ⟨c, cs, hpat⟩ : ∃ c cs, pat = c :: cs := by
      cases pat with
      | nil => exact absurd rfl hp
      | cons c cs => exact ⟨c, cs, rfl⟩
    rw [List.nil_append, List.nil_append]
    conv_lhs => rw [hpat]
    rw [replaceFirst,
      if_pos (by rw [← hpat]; exact List.isPrefixOf_iff_prefix.mpr (List.prefix_refl _))]
    rw [← hpat, List.drop_length]
    simp
  | cons c a2 ih =>
    intro h1
    rw [List.cons_append, countSub] at h1
    rw [List.cons_append, replaceFirst]
    split at h1
    · exfalso
      have := countSub_pos pat hp a2
      omega
    · rename_i hnp
      rw [if_neg hnp, ih (by omega)]
      rfl

lemma metaName_last_char (a : List Char) :
    (a ++ "_meta.json".data).getLast? = some 'n' := by
  rw [List.getLast?_append]
  rfl

/-! ## Claim theorems -/

/-- C1 counterexample: a save whose sidecar write throws still reports no
failure to the caller (the second component, the observable failure signal,
is none), refuting the claim that the failure reaches the caller as an
explicit failure signal. -/
theorem saveBookmarks_swallows_write_failure :
    (saveBookmarks [] "a.pdf" defaultBookmarkData (some "write failed")).2 = none := rfl

/-- C1 (corrected): for every annotation record, document name and write
outcome, saveBookmarks catches any write failure internally (logging it) and
resolves normally: the caller never observes a failure signal. -/
theorem saveBookmarks_reports_no_failure (fs : FileSys) (name : String)
    (data : BookmarkData) (writeError : Option String) :
    (saveBookmarks fs name data writeError).2 = none := by
  cases writeError <;> rfl

/-- C2 counterexample: on the input " a ", which does not contain the
metadata start token, parseGeminiOutput returns the raw input unchanged, not
the raw input trimmed of surrounding whitespace. -/
theorem parseGeminiOutput_no_token_untrimmed :
    (parseGeminiOutput " a " 0).rawText = " a " ∧
    (parseGeminiOutput " a " 0).rawText ≠ jsTrimS " a " := by
  constructor
  · rfl
  · decide

/-- C2 (corrected): for every input string that does not contain the metadata
start token, or whose extracted trailing span fails to parse as JSON,
parseGeminiOutput returns the all-null metadata object and a cleaned text
equal to the raw input unchanged (not trimmed). -/
theorem parseGeminiOutput_no_token (s : String) (now : Nat)
    (h : lastIndexOfSub metadataTokenChars s.data = none ∨
      ∀ i j, lastIndexOfSub metadataTokenChars s.data = some i →
        lastIndexOfSub ['\x7d'] s.data = some j → i < j →
        jsonParse ((s.data.drop i).take (j + 1 - i)) = none) :
    (parseGeminiOutput s now).metadata = defaultMetadataJson ∧
    (parseGeminiOutput s now).rawText = s := by
  have hmeta : extractMetadata s.data = (defaultMetadataJson, s.data) := by
    unfold extractMetadata
    rcases h with h | h
    · rw [h]
    · cases hstart : lastIndexOfSub metadataTokenChars s.data with
      | none => rfl
      | some i =>
        cases hend : lastIndexOfSub ['\x7d'] s.data with
        | none => rfl
        | some jj =>
          dsimp only
          by_cases hij : i < jj
          · rw [if_pos hij, h i jj hstart hend hij]
          · rw [if_neg hij]
  unfold parseGeminiOutput
  rw [hmeta]
  exact ⟨rfl, rfl⟩

/-- C2 witness: the input " a " satisfies the token-absence hypothesis, and
parseGeminiOutput on it yields the all-null metadata and the raw input. -/
theorem parseGeminiOutput_no_token_witness :
    (parseGeminiOutput " a " 0).metadata = defaultMetadataJson ∧
    (parseGeminiOutput " a " 0).rawText = " a " :=
  parseGeminiOutput_no_token " a " 0 (Or.inl (by decide))

/-- C3 counterexample: with a gateway that fails model "m1" with a rate-limit
signal and succeeds for "m2", analyzePdf does not return the output of "m2"
with a note naming "m2": "m2" is not in the hard-coded fallback list, so every
fallback fails and the rate-limit message is returned instead. -/
theorem analyzePdf_arbitrary_model_not_tried :
    analyzePdf
        (fun m => if m = "m2" then Except.ok "OUT" else Except.error "429")
        "key" "m1" ≠
      Except.ok ("OUT" ++ "\n\n(Note: Analysis performed using fallback model: m2)") := by
  have hval : analyzePdf
      (fun m => if m = "m2" then Except.ok "OUT" else Except.error "429")
      "key" "m1" = Except.ok (rateLimitMessage "429") := rfl
  rw [hval]
  intro h
  exact absurd (Except.ok.inj h) (by decide)

/-- Sequential first-success behaviour of the fallback loop: if every
candidate in a prefix of the list fails and the next candidate succeeds, the
loop returns that candidate and its output, whatever follows it in the list. -/
theorem tryFallbacks_first_success (gateway : String → Except String String) :
    ∀ (cs1 : List String) (candidate : String) (cs2 : List String) (out : String),
      (∀ c ∈ cs1, ∃ e, gateway c = Except.error e) →
      gateway candidate = Except.ok out →
      tryFallbacks gateway (cs1 ++ candidate :: cs2) = some (candidate, out) := by
  intro cs1
  induction cs1 with
  | nil =>
    intro candidate cs2 out _ hok
    rw [List.nil_append, tryFallbacks, hok]
  | cons c cs ih =>
    intro candidate cs2 out hfail hok
    obtain ⟨e, he⟩ := hfail c (by simp)
    rw [List.cons_append, tryFallbacks, he]
    exact ih candidate cs2 out (fun c2 hc2 => hfail c2 (by simp [hc2])) hok

/-- C3 (corrected): whenever the primary model call fails with a transient
signal (the thrown message contains 404 or 429), analyzePdf consults exactly
the hard-coded fallback list with the failed model filtered out (the failed
model is never retried), walks it sequentially, and as soon as one candidate
succeeds - after every earlier candidate failed, and regardless of the
candidates after it - returns that candidate's output with an appended note
naming it. -/
theorem analyzePdf_fallback_first_success (gateway : String → Except String String)
    (apiKey modelName msg : String) (cs1 : List String) (candidate : String)
    (cs2 : List String) (out : String)
    (hkey : ¬ apiKey = "")
    (hprimary : gateway modelName = Except.error msg)
    (htransient : strIncludes msg "404" = true ∨ strIncludes msg "429" = true)
    (hcands : fallbackCandidates.filter (fun m => m ≠ modelName) =
      cs1 ++ candidate :: cs2)
    (hbefore : ∀ c ∈ cs1, ∃ e, gateway c = Except.error e)
    (hserve : gateway candidate = Except.ok out) :
    analyzePdf gateway apiKey modelName =
      Except.ok (out ++ "\n\n(Note: Analysis performed using fallback model: " ++
        candidate ++ ")") ∧
    modelName ∉ cs1 ++ candidate :: cs2 := by
  constructor
  · unfold analyzePdf
    rw [if_neg hkey, hprimary]
    dsimp only
    have hor : (strIncludes msg "404" || strIncludes msg "429") = true := by
      rcases htransient with h | h
      · rw [h, Bool.true_or]
      · rw [h, Bool.or_true]
    rw [if_pos hor, hcands,
      tryFallbacks_first_success gateway cs1 candidate cs2 out hbefore hserve]
  · intro hmem
    rw [← hcands] at hmem
    have hne := (List.mem_filter.mp hmem).2
    simp at hne

/-- C3 witness: with the concrete probe gateway, the in-list primary
gemini-1.5-flash fails with a 404 message, the first remaining candidate
gemini-2.0-flash also fails, and the second remaining candidate
gemini-1.5-pro is the first success, so analyzePdf returns its output with a
note naming it; the failed primary is excluded from the candidates tried. -/
theorem analyzePdf_fallback_first_success_witness :
    strIncludes "404 model not found" "404" = true ∧
    probeGateway "gemini-1.5-flash" = Except.error "404 model not found" ∧
    probeGateway "gemini-2.0-flash" = Except.error "404 model not found" ∧
    probeGateway "gemini-1.5-pro" = Except.ok "OUT" ∧
    fallbackCandidates.filter (fun m => m ≠ "gemini-1.5-flash") =
      ["gemini-2.0-flash"] ++ "gemini-1.5-pro" :: ["gemini-pro"] ∧
    (analyzePdf probeGateway "key" "gemini-1.5-flash" =
      Except.ok ("OUT" ++ "\n\n(Note: Analysis performed using fallback model: " ++
        "gemini-1.5-pro" ++ ")") ∧
    "gemini-1.5-flash" ∉ ["gemini-2.0-flash"] ++ "gemini-1.5-pro" :: ["gemini-pro"]) :=
  ⟨by decide, rfl, rfl, rfl, by decide,
    analyzePdf_fallback_first_success probeGateway "key" "gemini-1.5-flash"
      "404 model not found" ["gemini-2.0-flash"] "gemini-1.5-pro" ["gemini-pro"] "OUT"
      (by decide) rfl (Or.inl (by decide)) (by decide)
      (by
        intro c hc
        rw [List.mem_singleton] at hc
        subst hc
        exact ⟨"404 model not found", rfl⟩)
      rfl⟩

/-- C4 counterexample: on the input with a malformed page marker followed by
a blank line and text, the parser yields two paragraphs, not exactly one. -/
theorem parseGeminiOutput_malformed_marker_not_one :
    (parseGeminiOutput "[Page abc]\n\nSome text" 0).paragraphs.length ≠ 1 := by
  decide

/-- C4 (corrected): parseGeminiOutput is a total function (the model never
throws), and on the input with a malformed page marker it yields two
paragraphs, both tagged page 1, with their text retained verbatim including
the literal malformed marker. -/
theorem parseGeminiOutput_malformed_marker :
    (parseGeminiOutput "[Page abc]\n\nSome text" 0).paragraphs.map
        (fun p => (p.text, p.page)) =
      [("[Page abc]", 1), ("Some text", 1)] := by
  decide

/-- C5 counterexample: two distinct document names, both ending in ".pdf",
whose derived sidecar names collide, because JavaScript replace substitutes
only the first occurrence of ".pdf". -/
theorem getMetaFileName_collision :
    getMetaFileName "a.pdf_meta.json.pdf" = getMetaFileName "a_meta.json.pdf.pdf" ∧
    "a.pdf_meta.json.pdf" ≠ ("a_meta.json.pdf.pdf" : String) ∧
    ".pdf".data.isSuffixOf "a.pdf_meta.json.pdf".data = true ∧
    ".pdf".data.isSuffixOf "a_meta.json.pdf.pdf".data = true := by
  refine ⟨by decide, by decide, by decide, by decide⟩

/-- C5 (corrected): the sidecar name is derived deterministically by
replacing the first occurrence of ".pdf" with "_meta.json"; restricted to
document names whose only occurrence of ".pdf" is their final extension, the
derivation is injective and the derived name differs from every such document
name. -/
theorem getMetaFileName_injective_on_unique (a b : List Char)
    (h1 : countSub ".pdf".data (a ++ ".pdf".data) = 1)
    (h2 : countSub ".pdf".data (b ++ ".pdf".data) = 1) :
    (a ≠ b →
      getMetaFileName (String.mk (a ++ ".pdf".data)) ≠
        getMetaFileName (String.mk (b ++ ".pdf".data))) ∧
    getMetaFileName (String.mk (a ++ ".pdf".data)) ≠ String.mk (b ++ ".pdf".data) := by
  have e1 : getMetaFileName (String.mk (a ++ ".pdf".data)) =
      String.mk (a ++ "_meta.json".data) := by
    show String.mk (replaceFirst ".pdf".data "_meta.json".data (a ++ ".pdf".data)) = _
    rw [replaceFirst_at_end _ _ (by decide) a h1]
  have e2 : getMetaFileName (String.mk (b ++ ".pdf".data)) =
      String.mk (b ++ "_meta.json".data) := by
    show String.mk (replaceFirst ".pdf".data "_meta.json".data (b ++ ".pdf".data)) = _
    rw [replaceFirst_at_end _ _ (by decide) b h2]
  constructor
  · intro hne heq
    rw [e1, e2] at heq
    have hdata : a ++ "_meta.json".data = b ++ "_meta.json".data := by
      simpa using congrArg String.data heq
    exact hne (List.append_cancel_right hdata)
  · intro heq
    rw [e1] at heq
    have hdata : a ++ "_meta.json".data = b ++ ".pdf".data := by
      simpa using congrArg String.data heq
    have hlast := congrArg List.getLast? hdata
    rw [metaName_last_char, List.getLast?_append] at hlast
    rw [show (".pdf".data).getLast? = some 'f' from rfl] at hlast
    simp at hlast

/-- C5 witness: two concrete simple names satisfy the unique-occurrence
hypotheses, and their sidecar names are distinct and differ from the source
names. -/
theorem getMetaFileName_injective_on_unique_witness :
    countSub ".pdf".data ("a".data ++ ".pdf".data) = 1 ∧
    countSub ".pdf".data ("b".data ++ ".pdf".data) = 1 ∧
    getMetaFileName (String.mk ("a".data ++ ".pdf".data)) ≠
      getMetaFileName (String.mk ("b".data ++ ".pdf".data)) ∧
    getMetaFileName (String.mk ("a".data ++ ".pdf".data)) ≠
      String.mk ("b".data ++ ".pdf".data) :=
  ⟨by decide, by decide,
    (getMetaFileName_injective_on_unique "a".data "b".data (by decide) (by decide)).1
      (by decide),
    (getMetaFileName_injective_on_unique "a".data "b".data (by decide) (by decide)).2⟩

/-- C6 (confirmed): for every annotation record, container state and document
name, saving the record (with the write pipeline succeeding) and immediately
loading it for the same container and document name returns a value deeply
equal to the record that was saved (its JSON image). -/
theorem saveBookmarks_loadBookmarks_roundtrip (fs : FileSys) (name : String)
    (data : BookmarkData) :
    loadBookmarks (saveBookmarks fs name data none).1 name = bookmarkDataToJson data := by
  show loadBookmarks (saveBookmarksFs fs name data) name = bookmarkDataToJson data
  unfold loadBookmarks saveBookmarksFs
  rw [show lookupFile
      ((getMetaFileName name, printJson 0 (bookmarkDataToJson data)) :: fs)
      (getMetaFileName name) = some (printJson 0 (bookmarkDataToJson data)) from by
    rw [lookupFile, if_pos rfl]]
  dsimp only
  rw [jsonParse_printJson]

/-- C7 counterexample: on all-null metadata the formatter emits the default
author "Unknown Author", not "Unknown", so the claimed template string is not
produced. -/
theorem formatCitation_default_not_unknown :
    formatCitation ⟨none, none, none, none⟩ ⟨"p1", "text", 3⟩ ≠
      "Unknown, *Unknown Title* (n.d.), p. 3." := by
  decide

/-- C7 (corrected): for every metadata value and paragraph, formatCitation is
a pure total function returning exactly the template string with the author
defaulting to "Unknown Author", the title to "Unknown Title" and the year to
"n.d.", followed by the page and a final period. -/
theorem formatCitation_matches_template (md : CitationMetadata) (para : Paragraph) :
    formatCitation md para =
      specAuthorField md ++ ", *" ++ specTitleField md ++ "* (" ++
        specYearField md ++ "), p. " ++ toString para.page ++ "." := by
  obtain ⟨t, a, y, pub⟩ := md
  cases a <;> cases t <;> cases y <;> rfl

/-- C8 (confirmed): for every index (every Fuse search function over any
paragraph set), querying with the empty string returns the empty result list
before the index is consulted. -/
theorem searchPanelResults_empty_query (fuseSearch : String → List FuseResult) :
    searchPanelResults fuseSearch "" = [] := by
  unfold searchPanelResults
  rw [if_pos rfl]

/-- C9 (confirmed): adding a saved citation and deleting a saved citation
each produce a new annotation record whose metadata field and bookmarks field
are unchanged from the previous record; only the savedCitations collection
differs. -/
theorem bookmark_handlers_preserve_frame (data : BookmarkData) (text : String)
    (page now : Nat) (cid : String) :
    (handleAddBookmark data text page now).metadata = data.metadata ∧
    (handleAddBookmark data text page now).bookmarks = data.bookmarks ∧
    (deleteBookmark data cid).metadata = data.metadata ∧
    (deleteBookmark data cid).bookmarks = data.bookmarks :=
  ⟨rfl, rfl, rfl, rfl⟩

/-- C10 (confirmed): loadBookmarks performs no schema validation: whenever
the sidecar content is syntactically valid JSON, the parsed value is returned
verbatim as the annotation record, whatever its shape; the all-default record
is returned exactly when the read or the JSON parse itself fails. -/
theorem loadBookmarks_returns_parse_verbatim (fs : FileSys) (name : String) :
    (∀ text j, lookupFile fs (getMetaFileName name) = some text →
      jsonParse text = some j → loadBookmarks fs name = j) ∧
    (lookupFile fs (getMetaFileName name) = none →
      loadBookmarks fs name = bookmarkDataToJson defaultBookmarkData) ∧
    (∀ text, lookupFile fs (getMetaFileName name) = some text →
      jsonParse text = none →
      loadBookmarks fs name = bookmarkDataToJson defaultBookmarkData) := by
  refine ⟨?_, ?_, ?_⟩
  · intro text j h1 h2
    unfold loadBookmarks
    rw [h1]
    dsimp only
    rw [h2]
  · intro h1
    unfold loadBookmarks
    rw [h1]
  · intro text h1 h2
    unfold loadBookmarks
    rw [h1]
    dsimp only
    rw [h2]

/-- C10 witness: a sidecar holding the valid JSON text 42, which is not an
annotation-record object at all, is returned verbatim by loadBookmarks. -/
theorem loadBookmarks_returns_parse_verbatim_witness :
    lookupFile [("a_meta.json", "42".data)] (getMetaFileName "a.pdf") = some "42".data ∧
    jsonParse "42".data = some (Json.num 42) ∧
    loadBookmarks [("a_meta.json", "42".data)] "a.pdf" = Json.num 42 :=
  ⟨rfl, rfl,
    (loadBookmarks_returns_parse_verbatim [("a_meta.json", "42".data)] "a.pdf").1
      "42".data (Json.num 42) rfl rfl⟩
